import Mathlib

/-!
Verification of the `pgbk` PostgreSQL-backed key-value backend
(`lib/backend/pgbk/pgbk.go`).

The backend stores rows in a SQL table
`kv(key bytea PRIMARY KEY, value bytea, expires timestamptz NULL, revision uuid)`
and implements the generic backend contract
(Create/Put/Update/CompareAndSwap/Get/GetRange/Delete/DeleteRange/KeepAlive).

The embedding below models:
  * byte strings as `List Nat`,
  * timestamps as `Nat` (`0` is Go's zero `time.Time`),
  * the table as an association list with at most one row per key
    (the `key` column is the primary key),
  * `now()` (the server transaction time) as an explicit parameter,
  * each SQL statement of the source as a pure function from store to store
    paired with the operation's result (`Except Err _`), so that read-only
    statements are visibly read-only in the returned store.
-/

namespace Pgbk

/-- A `bytea` byte string (used for both keys and values). -/
abbrev Bytes := List Nat

/-- Revisions are opaque unique identifiers (`uuid` in the schema);
we model them as `Nat`. -/
abbrev Revision := Nat

/-- A row of the `kv` table: `value`, nullable `expires`, `revision`.
The key is the association-list key. -/
structure Row where
  value : Bytes
  expires : Option Nat
  revision : Revision
  deriving DecidableEq

/-- `backend.Item` as used by this file: key, value, and expiry
(`Expires` is a Go `time.Time`; `0` is the zero time, meaning no expiry). -/
structure Item where
  key : Bytes
  value : Bytes
  expires : Nat
  deriving DecidableEq

/-- `backend.Lease`: the capability token returned by successful writes. -/
structure Lease where
  key : Bytes
  expires : Nat
  deriving DecidableEq

/-- The error kinds produced by the backend's operations
(`trace.AlreadyExists`, `trace.NotFound`, `trace.CompareFailed`,
`trace.BadParameter`). -/
inductive Err
  | alreadyExists
  | notFound
  | compareFailed
  | badParameter
  deriving DecidableEq

/-- The `kv` table: an association list from key to row. The primary-key
constraint makes the key column unique; operations below keep at most one
row per key. -/
abbrev Store := List (Bytes × Row)

/-- Row lookup by primary key. -/
def lookup : Store → Bytes → Option Row
  | [], _ => none
  | (k, r) :: s, key => if k = key then some r else lookup s key

/-- Write a row at a key: overwrite the existing row, or append a new one
(`INSERT ... ON CONFLICT (key) DO UPDATE`). -/
def setRow : Store → Bytes → Row → Store
  | [], key, r => [(key, r)]
  | (k, r0) :: s, key, r => if k = key then (key, r) :: s else (k, r0) :: setRow s key r

/-- Remove every row at a key (`DELETE FROM kv WHERE kv.key = $1`). -/
def removeKey (s : Store) (key : Bytes) : Store :=
  s.filter (fun kr => decide (kr.1 ≠ key))

/-- The liveness filter appearing in the source's WHERE clauses:
`kv.expires IS NULL OR kv.expires > now()`. -/
def isLive (now : Nat) (r : Row) : Bool :=
  match r.expires with
  | none => true
  | some e => decide (now < e)

/-- The overwrite condition of `Create`'s `ON CONFLICT` clause:
`kv.expires IS NOT NULL AND kv.expires <= now()`. -/
def isExpired (now : Nat) (r : Row) : Bool :=
  match r.expires with
  | none => false
  | some e => decide (e ≤ now)

/-- `zeronull.Timestamptz`: Go's zero `time.Time` is stored as SQL `NULL`. -/
def zeronullTimestamptz (t : Nat) : Option Nat :=
  if t = 0 then none else some t

/-- Reading `expires` back as a Go `time.Time` (`time.Time(expires)`):
SQL `NULL` becomes the zero time. -/
def timeOfTimestamptz : Option Nat → Nat
  | none => 0
  | some t => t

/-- Modelled from the spec: the helper `newLease` is pgbk code not present in
the sampled sources; the spec states that a successful write returns a
`Lease{Key, Expires}` carrying the written item's key and expiry. -/
def newLease (i : Item) : Lease :=
  ⟨i.key, i.expires⟩

/-- Modelled from the spec: the helper `newRevision` is pgbk code not present
in the sampled sources; the spec states that every successful write stamps a
freshly generated opaque unique revision. We pass the generated revision to
each write explicitly; freshness of a generated revision is expressed as not
occurring anywhere in the current store. -/
def freshRevision (rev : Revision) (s : Store) : Prop :=
  ∀ kr ∈ s, kr.2.revision ≠ rev

/-- `Backend.Create`:
`INSERT INTO kv (key, value, expires, revision) VALUES ($1,$2,$3,$4)
 ON CONFLICT (key) DO UPDATE SET value = excluded.value,
 expires = excluded.expires, revision = excluded.revision
 WHERE kv.expires IS NOT NULL AND kv.expires <= now()`;
`AlreadyExists` when no row was affected. -/
def create (now : Nat) (rev : Revision) (i : Item) (s : Store) :
    Except Err Lease × Store :=
  let row : Row := ⟨i.value, zeronullTimestamptz i.expires, rev⟩
  match lookup s i.key with
  | none => (.ok (newLease i), setRow s i.key row)
  | some old =>
    if isExpired now old then (.ok (newLease i), setRow s i.key row)
    else (.error .alreadyExists, s)

/-- `Backend.Put`: the same `INSERT`, but with an unconditional
`ON CONFLICT (key) DO UPDATE`; always succeeds. -/
def put (rev : Revision) (i : Item) (s : Store) :
    Except Err Lease × Store :=
  (.ok (newLease i), setRow s i.key ⟨i.value, zeronullTimestamptz i.expires, rev⟩)

/-- `Backend.CompareAndSwap`: `BadParameter` when the two keys differ;
otherwise `UPDATE kv SET value=$1, expires=$2, revision=$3 WHERE kv.key=$4
AND kv.value=$5 AND (kv.expires IS NULL OR kv.expires > now())`;
`CompareFailed` when no row was affected. -/
def compareAndSwap (now : Nat) (rev : Revision) (expected replaceWith : Item)
    (s : Store) : Except Err Lease × Store :=
  if expected.key ≠ replaceWith.key then (.error .badParameter, s)
  else
    match lookup s replaceWith.key with
    | some old =>
      if old.value = expected.value ∧ isLive now old then
        (.ok (newLease replaceWith),
         setRow s replaceWith.key
           ⟨replaceWith.value, zeronullTimestamptz replaceWith.expires, rev⟩)
      else (.error .compareFailed, s)
    | none => (.error .compareFailed, s)

/-- `Backend.Update`: `UPDATE kv SET value=$1, expires=$2, revision=$3
WHERE kv.key=$4 AND (kv.expires IS NULL OR kv.expires > now())`;
`NotFound` when no row was affected. -/
def update (now : Nat) (rev : Revision) (i : Item) (s : Store) :
    Except Err Lease × Store :=
  match lookup s i.key with
  | some old =>
    if isLive now old then
      (.ok (newLease i), setRow s i.key ⟨i.value, zeronullTimestamptz i.expires, rev⟩)
    else (.error .notFound, s)
  | none => (.error .notFound, s)

/-- `Backend.Get`: inside a transaction set read-only,
`SELECT kv.value, kv.expires, kv.revision FROM kv WHERE kv.key = $1 AND
(kv.expires IS NULL OR kv.expires > now())`; `NotFound` when no row matches.
The returned item carries key, value and expiry only (revision is not
exposed in `backend.Item`). -/
def get (now : Nat) (key : Bytes) (s : Store) : Except Err Item × Store :=
  match lookup s key with
  | some r =>
    if isLive now r then
      (.ok ⟨key, r.value, timeOfTimestamptz r.expires⟩, s)
    else (.error .notFound, s)
  | none => (.error .notFound, s)

/-- `Backend.Delete`: `DELETE FROM kv WHERE kv.key = $1 AND
(kv.expires IS NULL OR kv.expires > now())`; `NotFound` when no row was
affected (in particular an expired row is left in place). -/
def delete (now : Nat) (key : Bytes) (s : Store) : Except Err Unit × Store :=
  match lookup s key with
  | some r =>
    if isLive now r then (.ok (), removeKey s key)
    else (.error .notFound, s)
  | none => (.error .notFound, s)

/-- `Backend.KeepAlive`: `UPDATE kv SET expires = $1, revision = $2
WHERE kv.key = $3 AND (kv.expires IS NULL OR kv.expires > now())`;
the row's value is untouched; `NotFound` when no row was affected. -/
def keepAlive (now : Nat) (rev : Revision) (lease : Lease) (expires : Nat)
    (s : Store) : Except Err Unit × Store :=
  match lookup s lease.key with
  | some old =>
    if isLive now old then
      (.ok (), setRow s lease.key ⟨old.value, zeronullTimestamptz expires, rev⟩)
    else (.error .notFound, s)
  | none => (.error .notFound, s)

/-- A live row is present at a key (the spec's "live row exists":
the row's expiry is null or in the future). -/
def liveAt (now : Nat) (s : Store) (key : Bytes) : Bool :=
  match lookup s key with
  | some r => isLive now r
  | none => false

/-- A live row with a given value is present at a key
(`CompareAndSwap`'s precondition). -/
def liveValueAt (now : Nat) (s : Store) (key : Bytes) (v : Bytes) : Bool :=
  match lookup s key with
  | some r => isLive now r && decide (r.value = v)
  | none => false

/-- Byte-wise lexicographic order on `bytea` values, as used by PostgreSQL
to compare keys (`kv.key BETWEEN $1 AND $2`, `ORDER BY kv.key`): compare
byte by byte, a proper prefix sorts first. -/
def keyLe : Bytes → Bytes → Bool
  | [], _ => true
  | _ :: _, [] => false
  | a :: as, b :: bs => if a < b then true else if a = b then keyLe as bs else false

/-- `kv.key BETWEEN $1 AND $2`: inclusive on both ends. -/
def inKeyRange (startKey endKey k : Bytes) : Bool :=
  keyLe startKey k && keyLe k endKey

/-- The `ORDER BY kv.key` order, lifted to table rows. -/
def rowPairLe (a b : Bytes × Row) : Prop :=
  keyLe a.1 b.1 = true

instance : DecidableRel rowPairLe := fun a b =>
  inferInstanceAs (Decidable (keyLe a.1 b.1 = true))

/-- Modelled from the spec: `backend.DefaultRangeLimit` (the generic
backend's default result cap) is not among the sampled sources; the spec
only states that a default limit is applied when `limit <= 0`. Any positive
constant is faithful to that. -/
def DefaultRangeLimit : Nat := 2000

/-- The limit actually used by `GetRange`:
`if limit <= 0 { limit = backend.DefaultRangeLimit }`. -/
def effLimit (limit : Int) : Nat :=
  (if limit ≤ 0 then (DefaultRangeLimit : Int) else limit).toNat

/-- `Backend.GetRange`: inside a transaction set read-only,
`SELECT kv.key, kv.value, kv.expires, kv.revision FROM kv
 WHERE kv.key BETWEEN $1 AND $2 AND (kv.expires IS NULL OR kv.expires > now())
 ORDER BY kv.key LIMIT $3`. -/
def getRange (now : Nat) (startKey endKey : Bytes) (limit : Int) (s : Store) :
    List Item × Store :=
  let rows := s.filter (fun kr => inKeyRange startKey endKey kr.1 && isLive now kr.2)
  let sorted := List.insertionSort rowPairLe rows
  ((sorted.take (effLimit limit)).map
      (fun kr => (⟨kr.1, kr.2.value, timeOfTimestamptz kr.2.expires⟩ : Item)),
   s)

/-- `Backend.DeleteRange`: `DELETE FROM kv WHERE kv.key BETWEEN $1 AND $2`
(no liveness filter); never returns a backend error. -/
def deleteRange (startKey endKey : Bytes) (s : Store) :
    Except Err Unit × Store :=
  (.ok (), s.filter (fun kr => !inKeyRange startKey endKey kr.1))

/-- `AuthMode` is a string type; `StaticAuth = ""`, `AzureADAuth = "azure"`. -/
abbrev AuthMode := String

def StaticAuth : AuthMode := ""

def AzureADAuth : AuthMode := "azure"

/-- `AuthMode.Check`: valid only for the static and Azure AD modes. -/
def checkAuthMode (a : AuthMode) : Except Err Unit :=
  if a = StaticAuth ∨ a = AzureADAuth then .ok () else .error .badParameter

/-- `defaultChangeFeedBatchSize = 1000`. -/
def defaultChangeFeedBatchSize : Int := 1000

/-- Modelled from the spec: `defaultChangeFeedInterval` aliases
`backend.DefaultPollStreamPeriod`, which is not among the sampled sources;
the spec only states that a zero poll interval maps to the generic default.
We model it as one second in nanoseconds; its value is otherwise unused. -/
def defaultChangeFeedInterval : Int := 1000000000

/-- `defaultExpiryBatchSize = 1000`. -/
def defaultExpiryBatchSize : Int := 1000

/-- `defaultExpiryInterval = 30 * time.Second` (nanoseconds). -/
def defaultExpiryInterval : Int := 30000000000

/-- `Config`: durations (`types.Duration`) are int64 nanoseconds, batch
sizes are ints. The connection string plays no role in validation and is
omitted. -/
structure Config where
  authMode : AuthMode
  changeFeedPollInterval : Int
  changeFeedBatchSize : Int
  disableExpiry : Bool
  expiryInterval : Int
  expiryBatchSize : Int
  deriving DecidableEq

/-- Go's `if x == 0 { x = d }` zero-to-default rule. -/
def zeroToDefault (x d : Int) : Int :=
  if x = 0 then d else x

/-- `Config.CheckAndSetDefaults`, with the source's exact check order:
auth mode, change-feed poll interval, change-feed batch size, expiry
interval, expiry batch size; each numeric field must be non-negative and a
zero field is replaced by its default. -/
def checkAndSetDefaults (c : Config) : Except Err Config :=
  match checkAuthMode c.authMode with
  | .error e => .error e
  | .ok _ =>
    if c.changeFeedPollInterval < 0 then .error .badParameter else
    let c1 : Config := { c with changeFeedPollInterval := zeroToDefault c.changeFeedPollInterval defaultChangeFeedInterval }
    if c1.changeFeedBatchSize < 0 then .error .badParameter else
    let c2 : Config := { c1 with changeFeedBatchSize := zeroToDefault c1.changeFeedBatchSize defaultChangeFeedBatchSize }
    if c2.expiryInterval < 0 then .error .badParameter else
    let c3 : Config := { c2 with expiryInterval := zeroToDefault c2.expiryInterval defaultExpiryInterval }
    if c3.expiryBatchSize < 0 then .error .badParameter else
    .ok { c3 with expiryBatchSize := zeroToDefault c3.expiryBatchSize defaultExpiryBatchSize }

/-- The lifecycle state of a running backend: the root context, the two
background loops (expiry sweeper and change feed) parented to it, the watch
buffer and the connection pool. -/
structure BackendState where
  ctxCanceled : Bool
  expiryRunning : Bool
  changeFeedRunning : Bool
  bufClosed : Bool
  poolClosed : Bool
  deriving DecidableEq

/-- The four teardown steps of `Backend.Close`, in source order:
`b.cancel()`, `b.wg.Wait()`, `b.buf.Close()`, `b.pool.Close()`. -/
inductive CloseStep
  | cancelCtx
  | wgWait
  | bufClose
  | poolClose
  deriving DecidableEq

/-- `b.cancel()`: cancel the root context. -/
def cancelRootCtx (st : BackendState) : BackendState :=
  { st with ctxCanceled := true }

/-- `b.wg.Wait()`: both background loops run until the root context is
canceled, so the wait returns (with both loops exited) exactly when the
context has been canceled, and blocks forever (`none`) otherwise. -/
def wgWait (st : BackendState) : Option BackendState :=
  if st.ctxCanceled then
    some { st with expiryRunning := false, changeFeedRunning := false }
  else none

/-- `b.buf.Close()`. -/
def bufClose (st : BackendState) : BackendState :=
  { st with bufClosed := true }

/-- `b.pool.Close()`. -/
def poolClose (st : BackendState) : BackendState :=
  { st with poolClosed := true }

/-- `Backend.Close`: cancel, wait for the background loops, close the watch
buffer, close the pool, return `nil`. Produces the ordered trace of steps,
the final state, and the returned error; `none` if the wait never returns. -/
def close (st : BackendState) : Option (List CloseStep × BackendState × Option Err) :=
  match wgWait (cancelRootCtx st) with
  | none => none
  | some st2 =>
    some ([CloseStep.cancelCtx, CloseStep.wgWait, CloseStep.bufClose, CloseStep.poolClose],
      poolClose (bufClose st2), none)

/-- Replace every row's revision (keeping keys, values and expiries):
two stores related this way are indistinguishable to reads, which is how
the embedding states that revisions are not exposed in returned items. -/
def mapRevisions (f : Revision → Revision) (s : Store) : Store :=
  s.map (fun kr => (kr.1, { kr.2 with revision := f kr.2.revision }))

/-! ### Helper lemmas -/

theorem isExpired_eq_not_isLive (now : Nat) (r : Row) :
    isExpired now r = !isLive now r := by
  cases h : r.expires with
  | none => simp [isExpired, isLive, h]
  | some e =>
    simp only [isExpired, isLive, h, Bool.decide_eq_true]
    by_cases he : now < e
    · simp [he]
    · simp [he]
      omega

theorem lookup_setRow_self (s : Store) (key : Bytes) (r : Row) :
    lookup (setRow s key r) key = some r := by
  induction s with
  | nil => simp [setRow, lookup]
  | cons kr s ih =>
    by_cases h : kr.1 = key
    · simp [setRow, lookup, h]
    · simpa [setRow, lookup, h] using ih

theorem lookup_mem {s : Store} {key : Bytes} {r : Row}
    (h : lookup s key = some r) : (key, r) ∈ s := by
  induction s with
  | nil => simp [lookup] at h
  | cons kr s ih =>
    obtain ⟨k, r0⟩ := kr
    rw [lookup] at h
    by_cases hk : k = key
    · rw [if_pos hk] at h
      cases h
      subst hk
      exact List.mem_cons_self _ _
    · rw [if_neg hk] at h
      exact List.mem_cons_of_mem _ (ih h)

theorem keyLe_nil (b : Bytes) : keyLe [] b = true := rfl

theorem keyLe_cons {x y : Nat} {xs ys : Bytes} :
    keyLe (x :: xs) (y :: ys) = true ↔ (x < y ∨ (x = y ∧ keyLe xs ys = true)) := by
  by_cases h1 : x < y
  · simp [keyLe, h1]
  · by_cases h2 : x = y
    · subst h2
      simp [keyLe, h1]
    · simp [keyLe, h1, h2]

theorem keyLe_refl (a : Bytes) : keyLe a a = true := by
  induction a with
  | nil => rfl
  | cons x xs ih => simp [keyLe_cons, ih]

theorem keyLe_total (a b : Bytes) : keyLe a b = true ∨ keyLe b a = true := by
  induction a generalizing b with
  | nil => exact Or.inl rfl
  | cons x xs ih =>
    cases b with
    | nil => exact Or.inr rfl
    | cons y ys =>
      rcases Nat.lt_trichotomy x y with hxy | hxy | hxy
      · exact Or.inl (keyLe_cons.2 (Or.inl hxy))
      · subst hxy
        rcases ih ys with h | h
        · exact Or.inl (keyLe_cons.2 (Or.inr ⟨rfl, h⟩))
        · exact Or.inr (keyLe_cons.2 (Or.inr ⟨rfl, h⟩))
      · exact Or.inr (keyLe_cons.2 (Or.inl hxy))

theorem keyLe_trans {a b c : Bytes} (hab : keyLe a b = true)
    (hbc : keyLe b c = true) : keyLe a c = true := by
  induction a generalizing b c with
  | nil => rfl
  | cons x xs ih =>
    cases b with
    | nil => exact absurd hab (by simp [keyLe])
    | cons y ys =>
      cases c with
      | nil => exact absurd hbc (by simp [keyLe])
      | cons z zs =>
        rw [keyLe_cons] at hab hbc ⊢
        rcases hab with h1 | ⟨h1, h1'⟩ <;> rcases hbc with h2 | ⟨h2, h2'⟩
        · exact Or.inl (by omega)
        · exact Or.inl (by omega)
        · exact Or.inl (by omega)
        · exact Or.inr ⟨by omega, ih h1' h2'⟩

instance : IsTotal (Bytes × Row) rowPairLe :=
  ⟨fun a b => keyLe_total a.1 b.1⟩

instance : IsTrans (Bytes × Row) rowPairLe :=
  ⟨fun _ _ _ hab hbc => keyLe_trans hab hbc⟩

/-! ### Claim theorems -/

/-- C1: `Create(item)` succeeds (inserting or overwriting) exactly when no
live row exists at `item.key` — a row being live iff its expiry is null or
in the future — and fails with `AlreadyExists` exactly when a live row is
present; an expired row at the key is overwritten as if absent, and on
success `Create` returns a lease carrying the item's key and expiry. -/
theorem create_spec (now rev : Nat) (i : Item) (s : Store) :
    create now rev i s =
      if liveAt now s i.key then (.error .alreadyExists, s)
      else (.ok ⟨i.key, i.expires⟩,
        setRow s i.key ⟨i.value, zeronullTimestamptz i.expires, rev⟩) := by
  unfold create liveAt
  cases h : lookup s i.key with
  | none => simp [newLease]
  | some old =>
    dsimp only
    rw [isExpired_eq_not_isLive]
    cases hl : isLive now old <;> simp [newLease]

/-- C2: `CompareAndSwap(expected, replaceWith)` fails with `BadParameter`
when the two keys differ (mutating nothing); otherwise it replaces the
row's value and expiry exactly when a live row at `replaceWith.key` holds
`expected.value`, and fails with `CompareFailed` when that precondition is
not met. -/
theorem compareAndSwap_spec (now rev : Nat) (expected replaceWith : Item)
    (s : Store) :
    compareAndSwap now rev expected replaceWith s =
      if expected.key ≠ replaceWith.key then (.error .badParameter, s)
      else if liveValueAt now s replaceWith.key expected.value then
        (.ok ⟨replaceWith.key, replaceWith.expires⟩,
         setRow s replaceWith.key
           ⟨replaceWith.value, zeronullTimestamptz replaceWith.expires, rev⟩)
      else (.error .compareFailed, s) := by
  unfold compareAndSwap liveValueAt
  by_cases hk : expected.key = replaceWith.key
  · simp only [hk, ne_eq, not_true_eq_false, if_false, ite_not]
    cases h : lookup s replaceWith.key with
    | none => simp
    | some old =>
      by_cases hv : old.value = expected.value
      · cases hl : isLive now old <;> simp [newLease, hv, hl]
      · simp [newLease, hv]
  · simp [hk]

/-- C3: `Update`, `Delete` and `KeepAlive` each fail with `NotFound` and
leave the store unchanged when no live row exists at their key (absent key
or expired row), and each succeeds when a live row is present. -/
theorem notFound_spec (now rev : Nat) (i : Item) (key : Bytes)
    (lease : Lease) (expires : Nat) (s : Store) :
    (liveAt now s i.key = false → update now rev i s = (.error .notFound, s)) ∧
    (liveAt now s i.key = true →
       (update now rev i s).1 = .ok ⟨i.key, i.expires⟩) ∧
    (liveAt now s key = false → delete now key s = (.error .notFound, s)) ∧
    (liveAt now s key = true → (delete now key s).1 = .ok ()) ∧
    (liveAt now s lease.key = false →
       keepAlive now rev lease expires s = (.error .notFound, s)) ∧
    (liveAt now s lease.key = true →
       (keepAlive now rev lease expires s).1 = .ok ()) := by
  refine ⟨?_, ?_, ?_, ?_, ?_, ?_⟩
  · intro h
    unfold liveAt at h
    unfold update
    cases hl : lookup s i.key with
    | none => simp
    | some old => simp [hl] at h ⊢; simp [h]
  · intro h
    unfold liveAt at h
    unfold update
    cases hl : lookup s i.key with
    | none => simp [hl] at h
    | some old => simp [hl] at h ⊢; simp [h, newLease]
  · intro h
    unfold liveAt at h
    unfold delete
    cases hl : lookup s key with
    | none => simp
    | some old => simp [hl] at h ⊢; simp [h]
  · intro h
    unfold liveAt at h
    unfold delete
    cases hl : lookup s key with
    | none => simp [hl] at h
    | some old => simp [hl] at h ⊢; simp [h]
  · intro h
    unfold liveAt at h
    unfold keepAlive
    cases hl : lookup s lease.key with
    | none => simp
    | some old => simp [hl] at h ⊢; simp [h]
  · intro h
    unfold liveAt at h
    unfold keepAlive
    cases hl : lookup s lease.key with
    | none => simp [hl] at h
    | some old => simp [hl] at h ⊢; simp [h]

/-- C5 (counterexample): `Put` of an item whose expiry is already in the
past succeeds, but the immediately following `Get` fails with `NotFound`
instead of returning the item's value and expiry: at server time `5`,
after `Put {key := [0], value := [1], expires := 3}` on the empty store,
`Get [0]` returns `NotFound`. -/
theorem put_get_roundtrip_cex :
    (put 7 ⟨[0], [1], 3⟩ []).1 = .ok ⟨[0], 3⟩ ∧
    (get 5 [0] (put 7 ⟨[0], [1], 3⟩ []).2).1 = .error .notFound := by
  constructor <;> rfl

/-- C5 (amended): `Put(item)` succeeds unconditionally (upserting whether a
live, expired or no row exists at the key) and returns a lease; and when
the item is not already expired at the time of the read (its expiry is zero,
meaning no expiry, or strictly later than the server time), `Put` followed
immediately by `Get(item.key)` yields an item with the same value and the
same expiry. -/
theorem put_get_roundtrip (now rev : Nat) (i : Item) (s : Store) :
    (put rev i s).1 = .ok ⟨i.key, i.expires⟩ ∧
    ((i.expires = 0 ∨ now < i.expires) →
      get now i.key (put rev i s).2 =
        (.ok ⟨i.key, i.value, i.expires⟩, (put rev i s).2)) := by
  constructor
  · rfl
  · intro h
    unfold get put
    rw [lookup_setRow_self]
    rcases h with h | h
    · simp [h, isLive, zeronullTimestamptz, timeOfTimestamptz]
    · have h0 : i.expires ≠ 0 := by omega
      simp [h0, isLive, zeronullTimestamptz, timeOfTimestamptz, h]

/-- C6: `DeleteRange(start, end)` removes exactly the rows whose key lies
in `[start, end]` — live and expired alike, with no liveness filter — and
returns success even when nothing matches; by contrast, single-key `Delete`
does not remove a non-live row. -/
theorem deleteRange_spec (now : Nat) (startKey endKey key : Bytes)
    (s : Store) :
    (deleteRange startKey endKey s).1 = .ok () ∧
    (∀ kr : Bytes × Row, kr ∈ (deleteRange startKey endKey s).2 ↔
       kr ∈ s ∧ inKeyRange startKey endKey kr.1 = false) ∧
    (liveAt now s key = false → (delete now key s).2 = s) := by
  refine ⟨rfl, ?_, ?_⟩
  · intro kr
    simp [deleteRange, List.mem_filter]
  · intro h
    unfold liveAt at h
    unfold delete
    cases hl : lookup s key with
    | none => simp
    | some old => simp [hl] at h ⊢; simp [h]

/-- C9: `Close` tears down in exactly this order — cancel the root context,
wait for both background loops (expiry sweeper and change feed) to exit,
close the watch buffer, close the connection pool — and always returns
success; waiting without first cancelling would block forever. -/
theorem close_spec (st : BackendState) :
    close st =
      some ([CloseStep.cancelCtx, CloseStep.wgWait, CloseStep.bufClose,
              CloseStep.poolClose],
        ⟨true, false, false, true, true⟩, none) ∧
    (st.ctxCanceled = false → wgWait st = none) := by
  constructor
  · simp [close, cancelRootCtx, wgWait, bufClose, poolClose]
  · intro h
    simp [wgWait, h]

/-- C10: `Get` and `GetRange` never modify the store — both run in a
transaction set read-only, so the store they return is the store they were
given, for every key, range, limit and store state. -/
theorem readonly_spec (now : Nat) (key startKey endKey : Bytes)
    (limit : Int) (s : Store) :
    (get now key s).2 = s ∧ (getRange now startKey endKey limit s).2 = s := by
  constructor
  · unfold get
    cases lookup s key with
    | none => rfl
    | some r => dsimp only; split <;> rfl
  · rfl

/-- C7 (counterexample): a configuration whose auth mode is neither static
(`""`) nor Azure (`"azure"`) fails validation with `BadParameter` although
none of the four numeric fields is negative (all are `0` here), so
validation does not fail "exactly when" one of them is negative. -/
theorem checkAndSetDefaults_cex :
    checkAndSetDefaults ⟨"bogus", 0, 0, false, 0, 0⟩ = .error .badParameter := by
  rfl

/-- C7 (amended): for every configuration whose auth mode is valid (static
or Azure), validation fails with `BadParameter` exactly when one of the
change-feed poll interval, change-feed batch size, expiry interval or
expiry batch size is negative; when all are non-negative it succeeds, each
zero field replaced by its default (change-feed batch 1000, expiry batch
1000, expiry interval 30s) and every other field kept as supplied. -/
theorem checkAndSetDefaults_spec (c : Config)
    (h : c.authMode = StaticAuth ∨ c.authMode = AzureADAuth) :
    (checkAndSetDefaults c = .error .badParameter ↔
      (c.changeFeedPollInterval < 0 ∨ c.changeFeedBatchSize < 0 ∨
       c.expiryInterval < 0 ∨ c.expiryBatchSize < 0)) ∧
    (0 ≤ c.changeFeedPollInterval → 0 ≤ c.changeFeedBatchSize →
     0 ≤ c.expiryInterval → 0 ≤ c.expiryBatchSize →
      checkAndSetDefaults c = .ok
        ⟨c.authMode,
         zeroToDefault c.changeFeedPollInterval defaultChangeFeedInterval,
         zeroToDefault c.changeFeedBatchSize defaultChangeFeedBatchSize,
         c.disableExpiry,
         zeroToDefault c.expiryInterval defaultExpiryInterval,
         zeroToDefault c.expiryBatchSize defaultExpiryBatchSize⟩) := by
  have hc : checkAuthMode c.authMode = .ok () := by
    rcases h with h | h <;> simp [checkAuthMode, h]
  unfold checkAndSetDefaults
  rw [hc]
  constructor
  · by_cases h1 : c.changeFeedPollInterval < 0
    · simp [h1]
    · by_cases h2 : c.changeFeedBatchSize < 0
      · simp [h1, h2]
      · by_cases h3 : c.expiryInterval < 0
        · simp [h1, h2, h3]
        · by_cases h4 : c.expiryBatchSize < 0
          · simp [h1, h2, h3, h4]
          · simp [h1, h2, h3, h4]
  · intro g1 g2 g3 g4
    have h1 : ¬c.changeFeedPollInterval < 0 := by omega
    have h2 : ¬c.changeFeedBatchSize < 0 := by omega
    have h3 : ¬c.expiryInterval < 0 := by omega
    have h4 : ¬c.expiryBatchSize < 0 := by omega
    simp [h1, h2, h3, h4]

/-- C7 (witness): a valid static-auth configuration with a positive poll
interval, zero batch sizes and zero expiry interval validates to the
defaulted configuration. -/
theorem checkAndSetDefaults_spec_witness :
    checkAndSetDefaults ⟨StaticAuth, 5, 0, false, 0, 7⟩ =
      .ok ⟨StaticAuth, zeroToDefault 5 defaultChangeFeedInterval,
           zeroToDefault 0 defaultChangeFeedBatchSize, false,
           zeroToDefault 0 defaultExpiryInterval,
           zeroToDefault 7 defaultExpiryBatchSize⟩ :=
  (checkAndSetDefaults_spec ⟨StaticAuth, 5, 0, false, 0, 7⟩ (Or.inl rfl)).2
    (by decide) (by decide) (by decide) (by decide)

/-- C8: every successful write — `Create`, `Put`, `Update`,
`CompareAndSwap`, `KeepAlive` — stamps the freshly generated revision on
the affected row, so after a successful mutation the row's revision differs
from the revision of any row previously stored at that key; and reads do
not expose revisions: `Get` returns the same item on any store that differs
only in its rows' revisions. -/
theorem revision_spec (now rev : Nat) (i expected replaceWith : Item)
    (lease : Lease) (expires : Nat) (key : Bytes) (s : Store)
    (hfresh : freshRevision rev s) (f : Revision → Revision) :
    (liveAt now s i.key = false →
       (lookup (create now rev i s).2 i.key).map Row.revision = some rev) ∧
    ((lookup (put rev i s).2 i.key).map Row.revision = some rev) ∧
    (expected.key = replaceWith.key →
       liveValueAt now s replaceWith.key expected.value = true →
       (lookup (compareAndSwap now rev expected replaceWith s).2
          replaceWith.key).map Row.revision = some rev) ∧
    (liveAt now s i.key = true →
       (lookup (update now rev i s).2 i.key).map Row.revision = some rev) ∧
    (liveAt now s lease.key = true →
       (lookup (keepAlive now rev lease expires s).2
          lease.key).map Row.revision = some rev) ∧
    (∀ k old, lookup s k = some old → old.revision ≠ rev) ∧
    ((get now key (mapRevisions f s)).1 = (get now key s).1) := by
  have hold : ∀ k (old : Row), lookup s k = some old → old.revision ≠ rev :=
    fun k old hk => hfresh (k, old) (lookup_mem hk)
  refine ⟨?_, ?_, ?_, ?_, ?_, hold, ?_⟩
  · intro h
    unfold liveAt at h
    unfold create
    cases hk : lookup s i.key with
    | none => simp [lookup_setRow_self]
    | some old =>
      simp [hk] at h
      dsimp only
      rw [isExpired_eq_not_isLive, h]
      simp [lookup_setRow_self]
  · unfold put
    simp [lookup_setRow_self]
  · intro hk hv
    unfold liveValueAt at hv
    unfold compareAndSwap
    simp only [hk, ne_eq, not_true_eq_false, if_false]
    cases hm : lookup s replaceWith.key with
    | none => simp [hm] at hv
    | some old =>
      simp [hm] at hv
      dsimp only
      rw [if_pos ⟨hv.2, hv.1⟩]
      simp [lookup_setRow_self]
  · intro h
    unfold liveAt at h
    unfold update
    cases hk : lookup s i.key with
    | none => simp [hk] at h
    | some old =>
      simp [hk] at h
      simp [h, lookup_setRow_self]
  · intro h
    unfold liveAt at h
    unfold keepAlive
    cases hk : lookup s lease.key with
    | none => simp [hk] at h
    | some old =>
      simp [hk] at h
      simp [h, lookup_setRow_self]
  · unfold get
    have hm : ∀ t : Store, lookup (mapRevisions f t) key =
        (lookup t key).map (fun r => { r with revision := f r.revision }) := by
      intro t
      induction t with
      | nil => simp [mapRevisions, lookup]
      | cons kr t ih =>
        by_cases hk : kr.1 = key
        · simp [mapRevisions, lookup, hk]
        · simpa [mapRevisions, lookup, hk] using ih
    rw [hm s]
    cases hr : lookup s key with
    | none => rfl
    | some r =>
      have hlive : isLive now
          { value := r.value, expires := r.expires, revision := f r.revision } =
          isLive now r := rfl
      simp only [Option.map_some']
      rw [hlive]
      cases hl : isLive now r with
      | true => simp [hl, timeOfTimestamptz]
      | false => simp [hl]

/-- C8 (witness): with the one-row store `[([0], ⟨[1], none, 0⟩)]` and the
fresh revision `1`, a `Put` of `{key := [0], value := [2]}` leaves revision
`1` on the row. -/
theorem revision_spec_witness :
    (lookup (put 1 ⟨[0], [2], 0⟩ [([0], ⟨[1], none, 0⟩)]).2 [0]).map
      Row.revision = some 1 :=
  (revision_spec 0 1 ⟨[0], [2], 0⟩ ⟨[], [], 0⟩ ⟨[], [], 0⟩ ⟨[], 0⟩ 0 []
    [([0], ⟨[1], none, 0⟩)] (by unfold freshRevision; decide) id).2.1

/-- C4: `GetRange(start, end, limit)` returns only live rows whose keys lie
in the inclusive byte-wise range `[start, end]`, sorted ascending by key,
with at most `limit` results (every matching live row is returned when the
matches fit under the cap), and a default limit is applied when
`limit <= 0`. -/
theorem getRange_spec (now : Nat) (startKey endKey : Bytes) (limit : Int)
    (s : Store) :
    ((getRange now startKey endKey limit s).1.length ≤ effLimit limit) ∧
    (∀ it ∈ (getRange now startKey endKey limit s).1,
       inKeyRange startKey endKey it.key = true ∧
       ∃ r : Row, (it.key, r) ∈ s ∧ isLive now r = true ∧
         it.value = r.value ∧ it.expires = timeOfTimestamptz r.expires) ∧
    ((getRange now startKey endKey limit s).1.Pairwise
       (fun a b => keyLe a.key b.key = true)) ∧
    ((s.filter (fun kr => inKeyRange startKey endKey kr.1 && isLive now kr.2)).length
        ≤ effLimit limit →
      ∀ kr : Bytes × Row, kr ∈ s → inKeyRange startKey endKey kr.1 = true →
        isLive now kr.2 = true →
        (⟨kr.1, kr.2.value, timeOfTimestamptz kr.2.expires⟩ : Item) ∈
          (getRange now startKey endKey limit s).1) ∧
    (limit ≤ 0 →
      (getRange now startKey endKey limit s).1 =
        (getRange now startKey endKey (DefaultRangeLimit : Int) s).1) := by
  unfold getRange
  dsimp only
  set rows := s.filter (fun kr => inKeyRange startKey endKey kr.1 && isLive now kr.2)
    with hrows
  set sorted := List.insertionSort rowPairLe rows with hsorted
  refine ⟨?_, ?_, ?_, ?_, ?_⟩
  · simp only [List.length_map, List.length_take]
    omega
  · intro it hit
    simp only [List.mem_map] at hit
    obtain ⟨kr, hkr, hback⟩ := hit
    have h1 : kr ∈ sorted := (List.take_sublist _ _).subset hkr
    have h2 : kr ∈ rows := (List.perm_insertionSort rowPairLe rows).mem_iff.1 h1
    rw [hrows, List.mem_filter, Bool.and_eq_true] at h2
    subst hback
    exact ⟨h2.2.1, kr.2, h2.1, h2.2.2, rfl, rfl⟩
  · have hs : sorted.Pairwise rowPairLe := List.sorted_insertionSort rowPairLe rows
    have ht : (sorted.take (effLimit limit)).Pairwise rowPairLe :=
      hs.sublist (List.take_sublist _ _)
    rw [List.pairwise_map]
    exact ht.imp (fun h => h)
  · intro hlen kr hmem hrange hlive
    have hmr : kr ∈ rows := by
      rw [hrows, List.mem_filter, Bool.and_eq_true]
      exact ⟨hmem, hrange, hlive⟩
    have hms : kr ∈ sorted :=
      (List.perm_insertionSort rowPairLe rows).mem_iff.2 hmr
    have hslen : sorted.length = rows.length :=
      (List.perm_insertionSort rowPairLe rows).length_eq
    have htake : sorted.take (effLimit limit) = sorted :=
      List.take_of_length_le (by rw [hslen]; exact hlen)
    rw [htake]
    exact List.mem_map.2 ⟨kr, hms, rfl⟩
  · intro hle
    have heq : effLimit limit = effLimit (DefaultRangeLimit : Int) := by
      unfold effLimit DefaultRangeLimit
      rw [if_pos hle, if_neg (by decide)]
    rw [heq]

end Pgbk
